import Mathlib

/-!
Verification of the tiffview core: pixel-format normalization
(`src/tifread.rs`) and the raster container with bilinear resampling
(`src/image.rs`).

Floating-point values are embedded as exact rationals (`ℚ`); the Rust
numeric casts are modelled explicitly:

* `as u8` on a float value truncates toward zero and saturates into
  `[0, 255]` (`u8_of_rat`);
* `f32::round` / `f64::round` round half away from zero (`rat_round`);
* `as usize` on a nonnegative float truncates (`Rat.floor` + `Int.toNat`);
* `clamp(lo, hi)` is `min (max x lo) hi` (`rclamp`).

Fallible operations (Rust panics) are modelled with `Option`: `none`
means the Rust code panics.
-/

/-- Rust `f.clamp(lo, hi)`: `min (max x lo) hi`. -/
def rclamp (x lo hi : ℚ) : ℚ := min (max x lo) hi

/-- Rust `as u8` cast from a float: truncate toward zero, saturating into
`[0, 255]` (negative values go to 0, values above 255 go to 255). -/
def u8_of_rat (q : ℚ) : ℕ := min 255 (Int.toNat ⌊q⌋)

/-- Rust `f32::round`/`f64::round`: round half away from zero. -/
def rat_round (q : ℚ) : ℤ := if q < 0 then -⌊(1/2 : ℚ) - q⌋ else ⌊q + (1/2 : ℚ)⌋

/-- `to_u8_float` from `src/tifread.rs`: normalize a floating buffer to
`[0,1]` by its own min/max (span 1 when constant), clamp, scale by 255 and
cast to `u8`. Empty input returns empty output. -/
def to_u8_float : List ℚ → List ℕ
  | [] => []
  | b :: bs =>
    let minv := bs.foldl min b
    let maxv := bs.foldl max b
    let span := if maxv ≠ minv then maxv - minv else 1
    (b :: bs).map (fun value =>
      let normalized := (value - minv) / span
      let frac := rclamp normalized 0 1
      u8_of_rat (frac * 255))

/-- `to_u8_int` from `src/tifread.rs`, generic over the integer sample type
`T` with its `to_f64` conversion `toF`: normalize by min/max (span 1 when
constant), scale by 255, clamp into `[0,255]`, cast to `u8`. -/
def to_u8_int {T : Type} [LinearOrder T] (toF : T → ℚ) : List T → List ℕ
  | [] => []
  | b :: bs =>
    let minv := bs.foldl min b
    let maxv := bs.foldl max b
    let min_f64 := toF minv
    let max_f64 := toF maxv
    let span := if max_f64 ≠ min_f64 then max_f64 - min_f64 else 1
    (b :: bs).map (fun value =>
      let val_f64 := toF value
      let normalized := (val_f64 - min_f64) / span
      u8_of_rat (rclamp (normalized * 255) 0 255))

/-- `to_u8_int` instantiated at the signed integer sample types. -/
def to_u8_intZ : List ℤ → List ℕ := to_u8_int (fun z => (z : ℚ))

/-- `to_u8_int` instantiated at the unsigned integer sample types. -/
def to_u8_intN : List ℕ → List ℕ := to_u8_int (fun n => (n : ℚ))

/-- `tiff::decoder::DecodingResult`: the tagged union of the ten supported
sample encodings. Integer buffers carry their mathematical values
(`ℕ` for unsigned, `ℤ` for signed); float buffers carry exact rationals. -/
inductive DecodingResult where
  | U8 : List ℕ → DecodingResult
  | U16 : List ℕ → DecodingResult
  | U32 : List ℕ → DecodingResult
  | U64 : List ℕ → DecodingResult
  | F32 : List ℚ → DecodingResult
  | F64 : List ℚ → DecodingResult
  | I8 : List ℤ → DecodingResult
  | I16 : List ℤ → DecodingResult
  | I32 : List ℤ → DecodingResult
  | I64 : List ℤ → DecodingResult
  deriving DecidableEq

/-- Element count of a tagged sample buffer. -/
def DecodingResult.count : DecodingResult → ℕ
  | .U8 buf => buf.length
  | .U16 buf => buf.length
  | .U32 buf => buf.length
  | .U64 buf => buf.length
  | .F32 buf => buf.length
  | .F64 buf => buf.length
  | .I8 buf => buf.length
  | .I16 buf => buf.length
  | .I32 buf => buf.length
  | .I64 buf => buf.length

/-- `page_to_u8` from `src/tifread.rs`: dispatch a decoded page to the
matching normalization path; native `U8` is passed through unchanged. -/
def page_to_u8 : DecodingResult → List ℕ
  | .U8 buf => buf
  | .U16 buf => to_u8_intN buf
  | .U32 buf => to_u8_intN buf
  | .U64 buf => to_u8_intN buf
  | .F32 buf => to_u8_float buf
  | .F64 buf => to_u8_float buf
  | .I8 buf => to_u8_intZ buf
  | .I16 buf => to_u8_intZ buf
  | .I32 buf => to_u8_intZ buf
  | .I64 buf => to_u8_intZ buf

/-- Rust `as u8` cast of an integer value, saturating into `[0, 255]`. -/
def u8_of_int (z : ℤ) : ℕ := min 255 (Int.toNat z)

/-- `Image` from `src/image.rs`: a 2D grayscale image, pixels stored
row-major in a flat buffer (sample `(i, j)` at flat offset `i * ncols + j`).
Pixel bytes are modelled as naturals. -/
structure Image where
  nrows : ℕ
  ncols : ℕ
  pixels : List ℕ
  deriving DecidableEq

/-- The Rust-side invariant every constructed `Image` satisfies: the flat
buffer has exactly `nrows * ncols` samples. -/
def Image.wf (img : Image) : Prop := img.pixels.length = img.nrows * img.ncols

/-- `Image::new`: all pixels initialized to zero. -/
def Image.new (nrows ncols : ℕ) : Image :=
  ⟨nrows, ncols, List.replicate (nrows * ncols) 0⟩

/-- `Image::from_vec`: builds an image from an existing buffer; the
`assert_eq!(pixels.len(), nrows * ncols)` panic is modelled as `none`. -/
def Image.from_vec (nrows ncols : ℕ) (pixels : List ℕ) : Option Image :=
  if pixels.length = nrows * ncols then some ⟨nrows, ncols, pixels⟩ else none

/-- `Image::rows` accessor. -/
def Image.rows (img : Image) : ℕ := img.nrows

/-- `Image::cols` accessor. -/
def Image.cols (img : Image) : ℕ := img.ncols

/-- `Image::as_slice` accessor. -/
def Image.as_slice (img : Image) : List ℕ := img.pixels

/-- `Index<(usize, usize)> for Image`: reads `pixels[i * ncols + j]`; the
slice-indexing panic when the flat offset is out of bounds is `none`. -/
def Image.index (img : Image) (i j : ℕ) : Option ℕ :=
  img.pixels[i * img.ncols + j]?

/-- `IndexMut<(usize, usize)> for Image` used as a write of one sample:
writes `pixels[i * ncols + j]`; the slice-indexing panic is `none`. -/
def Image.index_mut (img : Image) (i j : ℕ) (v : ℕ) : Option Image :=
  if i * img.ncols + j < img.pixels.length then
    some { img with pixels := img.pixels.set (i * img.ncols + j) v }
  else none

/-- Sequences a list of fallible results: `none` as soon as any element is
`none` (a panic inside the loop aborts the whole computation). -/
def optSequence {α : Type} : List (Option α) → Option (List α)
  | [] => some []
  | none :: _ => none
  | some a :: rest => (optSequence rest).map (a :: ·)

/-- Loop body of `Image::scale` from `src/image.rs` for one destination
pixel `(i, j)`: map back to source coordinates, take floors, clamp the high
neighbors to the last valid row/column, interpolate bilinearly, round, and
cast to `u8`. A panic while fetching a corner sample is `none`. -/
def Image.scalePixel (img : Image) (factor : ℚ) (i j : ℕ) : Option ℕ :=
  let x : ℚ := (i : ℚ) / factor
  let y : ℚ := (j : ℚ) / factor
  let x0 : ℕ := Int.toNat ⌊x⌋
  let x1 : ℕ := min x0 (img.nrows - 1)
  let y0 : ℕ := Int.toNat ⌊y⌋
  let y1 : ℕ := min y0 (img.ncols - 1)
  let dx : ℚ := x - (x0 : ℚ)
  let dy : ℚ := y - (y0 : ℚ)
  match img.index x0 y0, img.index x0 y1, img.index x1 y0, img.index x1 y1 with
  | some p00, some p01, some p10, some p11 =>
    let p0 : ℚ := (p00 : ℚ) * (1 - dy) + (p01 : ℚ) * dy
    let p1 : ℚ := (p10 : ℚ) * (1 - dy) + (p11 : ℚ) * dy
    let p : ℚ := p0 * (1 - dx) + p1 * dx
    some (u8_of_int (rat_round p))
  | _, _, _, _ => none

/-- `Image::scale` from `src/image.rs`: output size is
`floor(ncols * factor) × floor(nrows * factor)` (`as usize` saturates
negatives to 0), pixels computed row-major by `Image.scalePixel`, the
result assembled through `Image::from_vec`. -/
def Image.scale (img : Image) (factor : ℚ) : Option Image :=
  let w : ℕ := Int.toNat ⌊(img.ncols : ℚ) * factor⌋
  let h : ℕ := Int.toNat ⌊(img.nrows : ℚ) * factor⌋
  match optSequence ((List.range h).flatMap (fun i =>
      (List.range w).map (fun j => img.scalePixel factor i j))) with
  | some new_pixels => Image.from_vec h w new_pixels
  | none => none

/-- The error type of the external `tiff` decoder, as the core sees it:
either the distinguished "no more pages" signal or any other decode/IO
failure (opaque to the core). -/
inductive DecErr where
  | noMorePages
  | other
  deriving DecidableEq

/-- The external multi-page decoder, abstracted as the per-page results of
its three operations (`dimensions`, `read_image`, `next_image`), indexed by
how many pages have been consumed so far. -/
structure Decoder where
  dims : ℕ → Except DecErr (ℕ × ℕ)
  readImage : ℕ → Except DecErr DecodingResult
  nextImage : ℕ → Except DecErr Unit

/-- Loop of `read_tiff` from `src/tifread.rs`: per iteration, ask for
dimensions and the decoded page (errors propagate via `?`), build an
`Image` (a `from_vec` panic is `none`), push it, then break out of the loop
whenever `next_image()` returns any `Err`. `fuel` bounds the iteration
count so the recursion is total; `k` counts pages consumed. -/
def read_tiff_loop (d : Decoder) : ℕ → ℕ → List Image →
    Option (Except DecErr (List Image))
  | 0, _, stack => some (Except.ok stack)
  | fuel + 1, k, stack =>
    match d.dims k with
    | Except.error e => some (Except.error e)
    | Except.ok wh =>
      match d.readImage k with
      | Except.error e => some (Except.error e)
      | Except.ok page =>
        match Image.from_vec wh.2 wh.1 (page_to_u8 page) with
        | none => none
        | some img =>
          match d.nextImage k with
          | Except.error _ => some (Except.ok (stack ++ [img]))
          | Except.ok _ => read_tiff_loop d fuel (k + 1) (stack ++ [img])

/-- `read_tiff` from `src/tifread.rs`, with the file already opened and the
decoder constructed (those steps only touch the filesystem): run the page
loop from an empty stack. -/
def read_tiff (d : Decoder) (fuel : ℕ) : Option (Except DecErr (List Image)) :=
  read_tiff_loop d fuel 0 []

/-- The bilinear resampling formula of one destination pixel, as described
in §4.4 of the design: source coordinates `x = i/factor`, `y = j/factor`,
base indices `x0 = ⌊x⌋`, `y0 = ⌊y⌋`, high neighbors clamped as
`x1 = min(x0, rows-1)`, `y1 = min(y0, cols-1)` (a clamp of the same base
index), corner samples fetched from the row-major buffer, interpolation
`p = (p00*(1-dy)+p01*dy)*(1-dx) + (p10*(1-dy)+p11*dy)*dx`, rounded to
nearest and cast to an unsigned byte. Total function: corner fetches use
`getD` (meaningful when the indices are in range). -/
def bilinearByte (img : Image) (factor : ℚ) (i j : ℕ) : ℕ :=
  let x : ℚ := (i : ℚ) / factor
  let y : ℚ := (j : ℚ) / factor
  let x0 : ℕ := Int.toNat ⌊x⌋
  let x1 : ℕ := min x0 (img.nrows - 1)
  let y0 : ℕ := Int.toNat ⌊y⌋
  let y1 : ℕ := min y0 (img.ncols - 1)
  let dx : ℚ := x - (x0 : ℚ)
  let dy : ℚ := y - (y0 : ℚ)
  let p00 : ℚ := (img.pixels.getD (x0 * img.ncols + y0) 0 : ℕ)
  let p01 : ℚ := (img.pixels.getD (x0 * img.ncols + y1) 0 : ℕ)
  let p10 : ℚ := (img.pixels.getD (x1 * img.ncols + y0) 0 : ℕ)
  let p11 : ℚ := (img.pixels.getD (x1 * img.ncols + y1) 0 : ℕ)
  let p0 : ℚ := p00 * (1 - dy) + p01 * dy
  let p1 : ℚ := p10 * (1 - dy) + p11 * dy
  let p : ℚ := p0 * (1 - dx) + p1 * dx
  u8_of_int (rat_round p)

/-- A decoder that produces one valid 1×1 page and then fails to advance
with a genuine (non-`noMorePages`) error. -/
def errAfterFirstPage : Decoder :=
  ⟨fun _ => Except.ok (1, 1), fun _ => Except.ok (DecodingResult.U8 [5]),
   fun _ => Except.error DecErr.other⟩

/-- A decoder whose very first `dimensions()` call fails. -/
def dimsFailDecoder : Decoder :=
  ⟨fun _ => Except.error DecErr.other,
   fun _ => Except.ok (DecodingResult.U8 []), fun _ => Except.ok ()⟩

/-! ### Helper lemmas about the min/max reductions -/

lemma foldl_min_le {T : Type} [LinearOrder T] :
    ∀ (bs : List T) (b v : T), v ∈ b :: bs → bs.foldl min b ≤ v
  | [], _, _, hv => by
    rcases List.mem_singleton.mp hv with rfl
    exact le_refl _
  | c :: cs, b, v, hv => by
    rw [List.foldl_cons]
    rcases List.mem_cons.mp hv with rfl | hv2
    · exact le_trans
        (foldl_min_le cs (min v c) (min v c) (List.mem_cons_self _ _))
        (min_le_left _ _)
    rcases List.mem_cons.mp hv2 with rfl | hv3
    · exact le_trans
        (foldl_min_le cs (min b v) (min b v) (List.mem_cons_self _ _))
        (min_le_right _ _)
    · exact foldl_min_le cs (min b c) v (List.mem_cons_of_mem _ hv3)

lemma le_foldl_max {T : Type} [LinearOrder T] :
    ∀ (bs : List T) (b v : T), v ∈ b :: bs → v ≤ bs.foldl max b
  | [], _, _, hv => by
    rcases List.mem_singleton.mp hv with rfl
    exact le_refl _
  | c :: cs, b, v, hv => by
    rw [List.foldl_cons]
    rcases List.mem_cons.mp hv with rfl | hv2
    · exact le_trans (le_max_left _ _)
        (le_foldl_max cs (max v c) (max v c) (List.mem_cons_self _ _))
    rcases List.mem_cons.mp hv2 with rfl | hv3
    · exact le_trans (le_max_right _ _)
        (le_foldl_max cs (max b v) (max b v) (List.mem_cons_self _ _))
    · exact le_foldl_max cs (max b c) v (List.mem_cons_of_mem _ hv3)

lemma foldl_min_mem {T : Type} [LinearOrder T] :
    ∀ (bs : List T) (b : T), bs.foldl min b ∈ b :: bs
  | [], b => List.mem_singleton.mpr rfl
  | c :: cs, b => by
    rw [List.foldl_cons]
    rcases List.mem_cons.mp (foldl_min_mem cs (min b c)) with h1 | h2
    · rw [h1]
      rcases min_choice b c with h3 | h3 <;> rw [h3]
      · exact List.mem_cons_self _ _
      · exact List.mem_cons_of_mem _ (List.mem_cons_self _ _)
    · exact List.mem_cons_of_mem _ (List.mem_cons_of_mem _ h2)

lemma foldl_max_mem {T : Type} [LinearOrder T] :
    ∀ (bs : List T) (b : T), bs.foldl max b ∈ b :: bs
  | [], b => List.mem_singleton.mpr rfl
  | c :: cs, b => by
    rw [List.foldl_cons]
    rcases List.mem_cons.mp (foldl_max_mem cs (max b c)) with h1 | h2
    · rw [h1]
      rcases max_choice b c with h3 | h3 <;> rw [h3]
      · exact List.mem_cons_self _ _
      · exact List.mem_cons_of_mem _ (List.mem_cons_self _ _)
    · exact List.mem_cons_of_mem _ (List.mem_cons_of_mem _ h2)

lemma foldl_min_replicate {T : Type} [LinearOrder T] (k : ℕ) (c : T) :
    (List.replicate k c).foldl min c = c := by
  induction k with
  | zero => rfl
  | succ k ih => rw [List.replicate_succ, List.foldl_cons, min_self]; exact ih

lemma foldl_max_replicate {T : Type} [LinearOrder T] (k : ℕ) (c : T) :
    (List.replicate k c).foldl max c = c := by
  induction k with
  | zero => rfl
  | succ k ih => rw [List.replicate_succ, List.foldl_cons, max_self]; exact ih

/-- The cons-shape unfolding of `to_u8_float`. -/
lemma to_u8_float_cons (b : ℚ) (bs : List ℚ) :
    to_u8_float (b :: bs) = (b :: bs).map (fun value =>
      u8_of_rat (rclamp ((value - bs.foldl min b) /
        (if bs.foldl max b ≠ bs.foldl min b then bs.foldl max b - bs.foldl min b
         else 1)) 0 1 * 255)) := rfl

/-- The cons-shape unfolding of `to_u8_int`. -/
lemma to_u8_int_cons {T : Type} [LinearOrder T] (toF : T → ℚ) (b : T)
    (bs : List T) :
    to_u8_int toF (b :: bs) = (b :: bs).map (fun value =>
      u8_of_rat (rclamp ((toF value - toF (bs.foldl min b)) /
        (if toF (bs.foldl max b) ≠ toF (bs.foldl min b) then
          toF (bs.foldl max b) - toF (bs.foldl min b)
         else 1) * 255) 0 255)) := rfl

lemma u8_of_rat_zero : u8_of_rat 0 = 0 := by
  norm_num [u8_of_rat]

lemma u8_of_rat_255 : u8_of_rat 255 = 255 := by
  norm_num [u8_of_rat]

/-- Normalizing a replicated (constant) float buffer gives all zeros. -/
lemma to_u8_float_replicate (n : ℕ) (c : ℚ) :
    to_u8_float (List.replicate n c) = List.replicate n 0 := by
  cases n with
  | zero => rfl
  | succ k =>
    rw [List.replicate_succ, to_u8_float_cons, ← List.replicate_succ,
      List.map_replicate, foldl_min_replicate, foldl_max_replicate]
    simp [rclamp, u8_of_rat_zero]

/-- Normalizing a replicated (constant) integer buffer gives all zeros. -/
lemma to_u8_int_replicate {T : Type} [LinearOrder T] (toF : T → ℚ) (n : ℕ)
    (c : T) :
    to_u8_int toF (List.replicate n c) = List.replicate n 0 := by
  cases n with
  | zero => rfl
  | succ k =>
    rw [List.replicate_succ, to_u8_int_cons, ← List.replicate_succ,
      List.map_replicate, foldl_min_replicate, foldl_max_replicate]
    simp [rclamp, u8_of_rat_zero]

lemma to_u8_float_extreme_bytes (b m M : ℚ) (bs : List ℚ)
    (hm : m ∈ b :: bs) (hmin : ∀ v ∈ b :: bs, m ≤ v)
    (hM : M ∈ b :: bs) (hmax : ∀ v ∈ b :: bs, v ≤ M) (hlt : m < M) (k : ℕ) :
    ((b :: bs)[k]? = some m → (to_u8_float (b :: bs))[k]? = some 0)
  ∧ ((b :: bs)[k]? = some M → (to_u8_float (b :: bs))[k]? = some 255) := by
  have hmin_eq : bs.foldl min b = m :=
    le_antisymm (foldl_min_le bs b m hm) (hmin _ (foldl_min_mem bs b))
  have hmax_eq : bs.foldl max b = M :=
    le_antisymm (hmax _ (foldl_max_mem bs b)) (le_foldl_max bs b M hM)
  have hspan : M - m ≠ 0 := sub_ne_zero.mpr hlt.ne'
  rw [to_u8_float_cons, hmin_eq, hmax_eq]
  constructor <;> intro hk <;> rw [List.getElem?_map, hk, Option.map_some']
  · rw [if_pos hlt.ne', sub_self, zero_div]
    norm_num [rclamp, u8_of_rat]
  · rw [if_pos hlt.ne', div_self hspan]
    norm_num [rclamp, u8_of_rat]

lemma to_u8_int_extreme_bytes {T : Type} [LinearOrder T] (toF : T → ℚ)
    (b m M : T) (bs : List T)
    (hm : m ∈ b :: bs) (hmin : ∀ v ∈ b :: bs, m ≤ v)
    (hM : M ∈ b :: bs) (hmax : ∀ v ∈ b :: bs, v ≤ M)
    (hne : toF M ≠ toF m) (k : ℕ) :
    ((b :: bs)[k]? = some m → (to_u8_int toF (b :: bs))[k]? = some 0)
  ∧ ((b :: bs)[k]? = some M → (to_u8_int toF (b :: bs))[k]? = some 255) := by
  have hmin_eq : bs.foldl min b = m :=
    le_antisymm (foldl_min_le bs b m hm) (hmin _ (foldl_min_mem bs b))
  have hmax_eq : bs.foldl max b = M :=
    le_antisymm (hmax _ (foldl_max_mem bs b)) (le_foldl_max bs b M hM)
  have hspan : toF M - toF m ≠ 0 := sub_ne_zero.mpr hne
  rw [to_u8_int_cons, hmin_eq, hmax_eq]
  constructor <;> intro hk <;> rw [List.getElem?_map, hk, Option.map_some']
  · rw [if_pos hne, sub_self, zero_div, zero_mul]
    norm_num [rclamp, u8_of_rat]
  · rw [if_pos hne, div_self hspan, one_mul]
    norm_num [rclamp, u8_of_rat]

lemma u8_of_rat_eq_floor (q : ℚ) (hq : q ≤ 255) :
    u8_of_rat q = Int.toNat ⌊q⌋ := by
  have h1 : ⌊q⌋ ≤ 255 := by
    have := Int.floor_le_floor hq
    simpa using this
  exact min_eq_right (by omega)

lemma to_u8_float_123 : to_u8_float [1, 2, 3] = [0, 127, 255] := by
  simp only [to_u8_float, List.foldl, List.map]
  norm_num [u8_of_rat, rclamp]
  decide

lemma to_u8_intZ_singleton_7 : to_u8_intZ [7] = [0] := by
  simp only [to_u8_intZ, to_u8_int, List.foldl, List.map]
  norm_num [u8_of_rat, rclamp]

/-- Claim C1 (counterexample): the floating-point path does NOT round to
nearest; the `as u8` cast truncates, so `[1.0, 2.0, 3.0]` normalizes to
`[0, 127, 255]` (127.5 truncated to 127), not the claimed `[0, 128, 255]`. -/
theorem to_u8_float_midpoint_truncated :
    to_u8_float [1, 2, 3] = [0, 127, 255] ∧
    to_u8_float [1, 2, 3] ≠ [0, 128, 255] := by
  refine ⟨to_u8_float_123, ?_⟩
  rw [to_u8_float_123]
  decide

/-- Claim C1 (amended): for every non-empty floating-point sample buffer,
`to_u8_float` clamps the normalized value to `[0,1]`, scales to `[0,255]`,
and truncates toward zero (floor of the nonnegative scaled value) before
casting to the unsigned byte; in particular `[1.0, 2.0, 3.0]` normalizes to
`[0, 127, 255]`. -/
theorem to_u8_float_clamp_scale_truncate (b : ℚ) (bs : List ℚ) :
    (to_u8_float (b :: bs) = (b :: bs).map (fun v =>
      Int.toNat ⌊rclamp ((v - bs.foldl min b) /
        (if bs.foldl max b ≠ bs.foldl min b then bs.foldl max b - bs.foldl min b
         else 1)) 0 1 * 255⌋))
    ∧ to_u8_float [1, 2, 3] = [0, 127, 255] := by
  refine ⟨?_, to_u8_float_123⟩
  rw [to_u8_float_cons]
  refine List.map_congr_left (fun v _ => ?_)
  refine u8_of_rat_eq_floor _ ?_
  have hle : rclamp ((v - bs.foldl min b) /
      (if bs.foldl max b ≠ bs.foldl min b then bs.foldl max b - bs.foldl min b
       else 1)) 0 1 ≤ 1 := min_le_right _ _
  calc rclamp _ 0 1 * 255 ≤ 1 * 255 :=
        mul_le_mul_of_nonneg_right hle (by norm_num)
    _ = 255 := by norm_num

/-- Claim C6 (counterexample): on the constant buffer `[7]` the unique
element is the input's maximum, yet the integer path outputs byte `0`,
not `255`: the min-to-0/max-to-255 property fails for constant buffers. -/
theorem normalize_constant_max_not_255 :
    to_u8_intZ [7] = [0] ∧ (to_u8_intZ [7])[0]? ≠ some 255 := by
  refine ⟨to_u8_intZ_singleton_7, ?_⟩
  rw [to_u8_intZ_singleton_7]
  decide

/-- Claim C6 (amended): for every non-empty integer or float sample
sequence whose minimum is strictly below its maximum, normalization maps
every position holding the minimum to byte 0 and every position holding
the maximum to byte 255 (exactly, on both paths). -/
theorem normalize_extremes_map_to_bounds
    (bF mF MF : ℚ) (bsF : List ℚ) (bZ mZ MZ : ℤ) (bsZ : List ℤ)
    (hmF : mF ∈ bF :: bsF) (hminF : ∀ v ∈ bF :: bsF, mF ≤ v)
    (hMF : MF ∈ bF :: bsF) (hmaxF : ∀ v ∈ bF :: bsF, v ≤ MF) (hltF : mF < MF)
    (hmZ : mZ ∈ bZ :: bsZ) (hminZ : ∀ v ∈ bZ :: bsZ, mZ ≤ v)
    (hMZ : MZ ∈ bZ :: bsZ) (hmaxZ : ∀ v ∈ bZ :: bsZ, v ≤ MZ) (hltZ : mZ < MZ) :
    (∀ k : ℕ, ((bF :: bsF)[k]? = some mF → (to_u8_float (bF :: bsF))[k]? = some 0)
        ∧ ((bF :: bsF)[k]? = some MF → (to_u8_float (bF :: bsF))[k]? = some 255))
  ∧ (∀ k : ℕ, ((bZ :: bsZ)[k]? = some mZ → (to_u8_intZ (bZ :: bsZ))[k]? = some 0)
        ∧ ((bZ :: bsZ)[k]? = some MZ → (to_u8_intZ (bZ :: bsZ))[k]? = some 255)) := by
  constructor
  · exact fun k => to_u8_float_extreme_bytes bF mF MF bsF hmF hminF hMF hmaxF hltF k
  · intro k
    exact to_u8_int_extreme_bytes (fun z : ℤ => (z : ℚ)) bZ mZ MZ bsZ hmZ hminZ
      hMZ hmaxZ (by simp only []; exact_mod_cast hltZ.ne') k

/-- Witness for the amended C6 at the concrete buffers `[1.0, 2.0, 3.0]`
(float path) and `[10, 20, 30]` (integer path). -/
theorem normalize_extremes_map_to_bounds_witness :
    ((to_u8_float [1, 2, 3])[0]? = some 0 ∧ (to_u8_float [1, 2, 3])[2]? = some 255)
  ∧ ((to_u8_intZ [10, 20, 30])[0]? = some 0
      ∧ (to_u8_intZ [10, 20, 30])[2]? = some 255) := by
  have H := normalize_extremes_map_to_bounds 1 1 3 [2, 3] 10 10 30 [20, 30]
    (by norm_num) (by intro v hv; fin_cases hv <;> norm_num)
    (by norm_num) (by intro v hv; fin_cases hv <;> norm_num) (by norm_num)
    (by norm_num) (by intro v hv; fin_cases hv <;> norm_num)
    (by norm_num) (by intro v hv; fin_cases hv <;> norm_num) (by norm_num)
  exact ⟨⟨(H.1 0).1 rfl, (H.1 2).2 rfl⟩, ⟨(H.2 0).1 rfl, (H.2 2).2 rfl⟩⟩

/-- Claim C7: a constant input sequence of any length normalizes, on both
the integer paths and the floating path, to a same-length all-zero output
(span substituted by 1, no division by zero). -/
theorem normalize_constant_all_zero (n : ℕ) (c : ℚ) (z : ℤ) (m : ℕ) :
    to_u8_float (List.replicate n c) = List.replicate n 0
  ∧ to_u8_intZ (List.replicate n z) = List.replicate n 0
  ∧ to_u8_intN (List.replicate n m) = List.replicate n 0 :=
  ⟨to_u8_float_replicate n c, to_u8_int_replicate _ n z,
    to_u8_int_replicate _ n m⟩

lemma to_u8_float_length (l : List ℚ) : (to_u8_float l).length = l.length := by
  cases l with
  | nil => rfl
  | cons b bs => rw [to_u8_float_cons, List.length_map]

lemma to_u8_int_length {T : Type} [LinearOrder T] (toF : T → ℚ) (l : List T) :
    (to_u8_int toF l).length = l.length := by
  cases l with
  | nil => rfl
  | cons b bs => rw [to_u8_int_cons, List.length_map]

/-- Claim C9: the dispatcher preserves the element count for each of the
ten supported kinds, passes native `U8` through unchanged, and routes each
of the other nine kinds to the integer or floating path purely by tag. -/
theorem page_to_u8_dispatch (r : DecodingResult) :
    (page_to_u8 r).length = r.count
  ∧ (∀ buf, page_to_u8 (.U8 buf) = buf)
  ∧ (∀ buf, page_to_u8 (.U16 buf) = to_u8_intN buf)
  ∧ (∀ buf, page_to_u8 (.U32 buf) = to_u8_intN buf)
  ∧ (∀ buf, page_to_u8 (.U64 buf) = to_u8_intN buf)
  ∧ (∀ buf, page_to_u8 (.F32 buf) = to_u8_float buf)
  ∧ (∀ buf, page_to_u8 (.F64 buf) = to_u8_float buf)
  ∧ (∀ buf, page_to_u8 (.I8 buf) = to_u8_intZ buf)
  ∧ (∀ buf, page_to_u8 (.I16 buf) = to_u8_intZ buf)
  ∧ (∀ buf, page_to_u8 (.I32 buf) = to_u8_intZ buf)
  ∧ (∀ buf, page_to_u8 (.I64 buf) = to_u8_intZ buf) := by
  refine ⟨?_, fun _ => rfl, fun _ => rfl, fun _ => rfl, fun _ => rfl,
    fun _ => rfl, fun _ => rfl, fun _ => rfl, fun _ => rfl, fun _ => rfl,
    fun _ => rfl⟩
  cases r <;>
    simp [page_to_u8, DecodingResult.count, to_u8_float_length,
      to_u8_intZ, to_u8_intN, to_u8_int_length]

/-- Claim C2 (counterexample): on the well-formed 2×3 image with pixels
`[10..15]`, reading or writing `(0, 4)` — column 4 with only 3 columns —
does not panic: the flat offset `0 * 3 + 4 = 4` is still inside the buffer,
so the access silently aliases the sample at logical position `(1, 1)`. -/
theorem image_index_col_overflow_aliases :
    (Image.mk 2 3 [10, 11, 12, 13, 14, 15]).wf
  ∧ (Image.mk 2 3 [10, 11, 12, 13, 14, 15]).index 0 4 = some 14
  ∧ (Image.mk 2 3 [10, 11, 12, 13, 14, 15]).index_mut 0 4 99
      = some (Image.mk 2 3 [10, 11, 12, 13, 99, 15]) :=
  ⟨rfl, rfl, rfl⟩

/-- Claim C2 (amended): element access panics exactly when the flat offset
`i * cols + j` falls outside the pixel buffer; an out-of-range row always
panics, but an out-of-range column whose flat offset stays inside the
buffer silently reads/writes an aliased sample from a later row. -/
theorem image_access_flat_bounds (img : Image) (i j v : ℕ) (hwf : img.wf) :
    (img.index i j = none ↔ img.nrows * img.ncols ≤ i * img.ncols + j)
  ∧ (img.index_mut i j v = none ↔ img.nrows * img.ncols ≤ i * img.ncols + j)
  ∧ (img.nrows ≤ i → img.index i j = none ∧ img.index_mut i j v = none) := by
  have hrow : img.nrows ≤ i → img.nrows * img.ncols ≤ i * img.ncols + j :=
    fun hle => le_trans (Nat.mul_le_mul_right _ hle) (Nat.le_add_right _ _)
  have h1 : img.index i j = none ↔ img.nrows * img.ncols ≤ i * img.ncols + j := by
    rw [Image.index, List.getElem?_eq_none_iff, hwf]
  have h2 : img.index_mut i j v = none ↔
      img.nrows * img.ncols ≤ i * img.ncols + j := by
    rw [Image.index_mut, hwf]
    split_ifs with hc
    · exact iff_of_false (by simp) (not_le.mpr hc)
    · exact iff_of_true rfl (not_lt.mp hc)
  exact ⟨h1, h2, fun hle => ⟨h1.mpr (hrow hle), h2.mpr (hrow hle)⟩⟩

/-- Witness for the amended C2: row 5 on the 2×3 image panics for both the
read and the write access. -/
theorem image_access_flat_bounds_witness :
    (Image.mk 2 3 [10, 11, 12, 13, 14, 15]).index 5 0 = none
  ∧ (Image.mk 2 3 [10, 11, 12, 13, 14, 15]).index_mut 5 0 0 = none :=
  (image_access_flat_bounds (Image.mk 2 3 [10, 11, 12, 13, 14, 15]) 5 0 0
    rfl).2.2 (by norm_num)

/-- Claim C8: `Image::from_vec` fails (panics on its `assert_eq!`) exactly
when the buffer length differs from `rows * cols`, before any other use of
the buffer; on success the resulting raster holds exactly the given
dimensions and buffer (and satisfies the length invariant). -/
theorem from_vec_dimension_check (nrows ncols : ℕ) (pixels : List ℕ) :
    (Image.from_vec nrows ncols pixels = none ↔
      pixels.length ≠ nrows * ncols)
  ∧ (∀ img, Image.from_vec nrows ncols pixels = some img →
      img = Image.mk nrows ncols pixels ∧ img.wf) := by
  rw [Image.from_vec]
  split_ifs with hc
  · exact ⟨by simp [hc], fun img himg => by
      cases Option.some.injEq _ _ ▸ himg
      exact ⟨(Option.some.inj himg).symm, by
        rw [← (Option.some.inj himg)]; exact hc⟩⟩
  · exact ⟨by simp [hc], fun img himg => by cases himg⟩

/-- Witness for C8: a 2×3 raster from a length-5 buffer fails; from a
length-6 buffer it succeeds and holds exactly that buffer. -/
theorem from_vec_dimension_check_witness :
    Image.from_vec 2 3 [9, 9, 9, 9, 9] = none
  ∧ (Image.mk 2 3 [0, 1, 2, 3, 4, 5] = Image.mk 2 3 [0, 1, 2, 3, 4, 5]
      ∧ (Image.mk 2 3 [0, 1, 2, 3, 4, 5]).wf) :=
  ⟨(from_vec_dimension_check 2 3 [9, 9, 9, 9, 9]).1.mpr (by decide),
   (from_vec_dimension_check 2 3 [0, 1, 2, 3, 4, 5]).2
     (Image.mk 2 3 [0, 1, 2, 3, 4, 5]) rfl⟩



/-- Claim C3 (counterexample): when advancing to the next page fails with a
genuine error (`DecErr.other`, not the "no more pages" signal), `read_tiff`
still terminates normally with the pages decoded so far instead of
propagating the failure: `next_image().is_err()` does not distinguish the
two cases. -/
theorem read_tiff_swallows_advance_error :
    read_tiff errAfterFirstPage 2 = some (Except.ok [Image.mk 1 1 [5]])
  ∧ read_tiff errAfterFirstPage 2 ≠ some (Except.error DecErr.other)
  ∧ read_tiff errAfterFirstPage 2 ≠ some (Except.error DecErr.noMorePages) := by
  have hval : read_tiff errAfterFirstPage 2 =
      some (Except.ok [Image.mk 1 1 [5]]) := rfl
  refine ⟨hval, ?_, ?_⟩
  · rw [hval]; simp
  · rw [hval]; simp

/-- Claim C3 (amended): `read_tiff` treats ANY failure of `next_image` —
the "no more pages" signal and genuine decode failures alike — as normal
loop termination returning the pages decoded so far, while failures when
reading the current page's dimensions or data are propagated as fatal
errors to the caller. -/
theorem read_tiff_next_error_terminates (d : Decoder) (fuel k : ℕ)
    (stack : List Image) :
    (∀ e, d.dims k = Except.error e →
      read_tiff_loop d (fuel + 1) k stack = some (Except.error e))
  ∧ (∀ e wh, d.dims k = Except.ok wh → d.readImage k = Except.error e →
      read_tiff_loop d (fuel + 1) k stack = some (Except.error e))
  ∧ (∀ e wh page img, d.dims k = Except.ok wh →
      d.readImage k = Except.ok page →
      Image.from_vec wh.2 wh.1 (page_to_u8 page) = some img →
      d.nextImage k = Except.error e →
      read_tiff_loop d (fuel + 1) k stack = some (Except.ok (stack ++ [img]))) := by
  refine ⟨fun e he => ?_, fun e wh h1 h2 => ?_, fun e wh page img h1 h2 h3 h4 => ?_⟩
  · simp only [read_tiff_loop, he]
  · simp only [read_tiff_loop, h1, h2]
  · simp only [read_tiff_loop, h1, h2, h3, h4]

/-- Witness for the amended C3: a failing `dimensions()` call propagates
the error, while a failing `next_image()` call after one good page returns
that page normally. -/
theorem read_tiff_next_error_terminates_witness :
    read_tiff_loop dimsFailDecoder 1 0 [] = some (Except.error DecErr.other)
  ∧ read_tiff_loop errAfterFirstPage 1 0 [] =
      some (Except.ok [Image.mk 1 1 [5]]) := by
  constructor
  · exact (read_tiff_next_error_terminates dimsFailDecoder 0 0 []).1
      DecErr.other rfl
  · have h := (read_tiff_next_error_terminates errAfterFirstPage 0 0 []).2.2
      DecErr.other (1, 1) (DecodingResult.U8 [5]) (Image.mk 1 1 [5])
      rfl rfl rfl rfl
    simpa using h


lemma flat_grid_length {α : Type} (h w : ℕ) (g : ℕ → ℕ → α) :
    ((List.range h).flatMap (fun i => (List.range w).map (g i))).length
      = h * w := by
  rw [List.length_flatMap]
  have h1 : (List.range h).map (List.length ∘ fun i => (List.range w).map (g i))
      = (List.range h).map (fun _ => w) :=
    List.map_congr_left (fun i _ => by simp)
  rw [h1, List.map_const', List.length_range, List.sum_replicate, smul_eq_mul]

lemma flat_grid_getElem {α : Type} (w i j : ℕ) (g : ℕ → ℕ → α) :
    ∀ h : ℕ, i < h → j < w →
    ((List.range h).flatMap (fun i => (List.range w).map (g i)))[i * w + j]?
      = some (g i j) := by
  intro h
  induction h with
  | zero => omega
  | succ h ih =>
    intro hi hj
    rw [List.range_succ, List.flatMap_append, List.getElem?_append,
      flat_grid_length]
    rcases Nat.lt_or_ge i h with hlt | hge
    · have hidx : i * w + j < h * w := by
        calc i * w + j < i * w + w := by omega
          _ = (i + 1) * w := by ring
          _ ≤ h * w := Nat.mul_le_mul_right w hlt
      rw [if_pos hidx]
      exact ih hlt hj
    · have hieq : i = h := by omega
      subst hieq
      have hidx : ¬ (i * w + j < i * w) := by omega
      rw [if_neg hidx, Nat.add_sub_cancel_left]
      simp [List.getElem?_map, List.getElem?_range hj]

lemma cast_toNat_floor_eq (q : ℚ) (hq : 0 ≤ q) :
    ((Int.toNat ⌊q⌋ : ℕ) : ℚ) = ((⌊q⌋ : ℤ) : ℚ) := by
  rw [← Int.cast_natCast (R := ℚ)]
  exact congrArg _ (Int.toNat_of_nonneg (Int.floor_nonneg.mpr hq))

lemma floor_div_lt (n cnt : ℕ) (factor : ℚ) (hfac : 0 < factor)
    (hlt : cnt < Int.toNat ⌊(n : ℚ) * factor⌋) :
    Int.toNat ⌊(cnt : ℚ) / factor⌋ < n := by
  have h0 : (0 : ℚ) ≤ (n : ℚ) * factor :=
    mul_nonneg (Nat.cast_nonneg n) hfac.le
  have h1 : ((Int.toNat ⌊(n : ℚ) * factor⌋ : ℕ) : ℚ) ≤ (n : ℚ) * factor := by
    rw [cast_toNat_floor_eq _ h0]
    exact Int.floor_le _
  have h2 : (cnt : ℚ) < (n : ℚ) * factor := by
    have hsucc : ((cnt + 1 : ℕ) : ℚ) ≤ ((Int.toNat ⌊(n : ℚ) * factor⌋ : ℕ) : ℚ) := by
      exact_mod_cast Nat.succ_le_of_lt hlt
    push_cast at hsucc
    linarith
  have h3 : (cnt : ℚ) / factor < (n : ℚ) := (div_lt_iff₀ hfac).mpr h2
  have h4 : (0 : ℚ) ≤ (cnt : ℚ) / factor :=
    div_nonneg (Nat.cast_nonneg _) hfac.le
  have h5 : ((Int.toNat ⌊(cnt : ℚ) / factor⌋ : ℕ) : ℚ) ≤ (cnt : ℚ) / factor := by
    rw [cast_toNat_floor_eq _ h4]
    exact Int.floor_le _
  have h6 : ((Int.toNat ⌊(cnt : ℚ) / factor⌋ : ℕ) : ℚ) < (n : ℚ) :=
    lt_of_le_of_lt h5 h3
  exact_mod_cast h6

lemma index_eq_getD (img : Image) (x y : ℕ) (hwf : img.wf)
    (hx : x < img.nrows) (hy : y < img.ncols) :
    img.index x y = some (img.pixels.getD (x * img.ncols + y) 0) := by
  have hflat : x * img.ncols + y < img.pixels.length := by
    rw [hwf]
    calc x * img.ncols + y < x * img.ncols + img.ncols := by omega
      _ = (x + 1) * img.ncols := by ring
      _ ≤ img.nrows * img.ncols := Nat.mul_le_mul_right _ hx
  rw [Image.index, List.getElem?_eq_getElem hflat,
    List.getD_eq_getElem img.pixels 0 hflat]

lemma scalePixel_eq_bilinearByte (img : Image) (factor : ℚ) (i j : ℕ)
    (hwf : img.wf) (hfac : 0 < factor)
    (hi : i < Int.toNat ⌊(img.nrows : ℚ) * factor⌋)
    (hj : j < Int.toNat ⌊(img.ncols : ℚ) * factor⌋) :
    img.scalePixel factor i j = some (bilinearByte img factor i j) := by
  have hx0 : Int.toNat ⌊(i : ℚ) / factor⌋ < img.nrows :=
    floor_div_lt img.nrows i factor hfac hi
  have hy0 : Int.toNat ⌊(j : ℚ) / factor⌋ < img.ncols :=
    floor_div_lt img.ncols j factor hfac hj
  have hx1 : min (Int.toNat ⌊(i : ℚ) / factor⌋) (img.nrows - 1) < img.nrows :=
    lt_of_le_of_lt (min_le_left _ _) hx0
  have hy1 : min (Int.toNat ⌊(j : ℚ) / factor⌋) (img.ncols - 1) < img.ncols :=
    lt_of_le_of_lt (min_le_left _ _) hy0
  simp only [Image.scalePixel, bilinearByte]
  rw [index_eq_getD img _ _ hwf hx0 hy0, index_eq_getD img _ _ hwf hx0 hy1,
    index_eq_getD img _ _ hwf hx1 hy0, index_eq_getD img _ _ hwf hx1 hy1]

lemma optSequence_map_some {α : Type} (l : List α) :
    optSequence (l.map some) = some l := by
  induction l with
  | nil => rfl
  | cons a l ih => simp [optSequence, ih]


lemma scale_eq_grid (img : Image) (factor : ℚ) (hwf : img.wf)
    (hfac : 0 < factor) :
    img.scale factor = some (Image.mk
      (Int.toNat ⌊(img.nrows : ℚ) * factor⌋)
      (Int.toNat ⌊(img.ncols : ℚ) * factor⌋)
      ((List.range (Int.toNat ⌊(img.nrows : ℚ) * factor⌋)).flatMap (fun i =>
        (List.range (Int.toNat ⌊(img.ncols : ℚ) * factor⌋)).map (fun j =>
          bilinearByte img factor i j)))) := by
  have hlist : (List.range (Int.toNat ⌊(img.nrows : ℚ) * factor⌋)).flatMap
        (fun i => (List.range (Int.toNat ⌊(img.ncols : ℚ) * factor⌋)).map
          (fun j => img.scalePixel factor i j))
      = ((List.range (Int.toNat ⌊(img.nrows : ℚ) * factor⌋)).flatMap (fun i =>
          (List.range (Int.toNat ⌊(img.ncols : ℚ) * factor⌋)).map (fun j =>
            bilinearByte img factor i j))).map some := by
    rw [List.map_flatMap]
    refine List.flatMap_congr (fun i hi => ?_)
    rw [List.map_map]
    refine List.map_congr_left (fun j hj => ?_)
    exact scalePixel_eq_bilinearByte img factor i j hwf hfac
      (List.mem_range.mp hi) (List.mem_range.mp hj)
  simp only [Image.scale]
  rw [hlist, optSequence_map_some]
  simp only [Image.from_vec]
  rw [flat_grid_length, if_pos rfl]

/-- Claim C4: for every well-formed source raster and positive factor,
every destination pixel `(i, j)` of `scale` is computed (without panic) as
exactly the bilinear interpolation of §4.4: `x = i/factor`, `y = j/factor`,
`x0 = ⌊x⌋`, `y0 = ⌊y⌋`, high neighbors clamped as `x1 = min(x0, rows-1)`,
`y1 = min(y0, cols-1)` (a clamp of the same base index, not of `x0+1`),
`p = (p00*(1-dy)+p01*dy)*(1-dx) + (p10*(1-dy)+p11*dy)*dx`, rounded to
nearest and stored as an unsigned byte — the formula `bilinearByte`. -/
theorem scale_pixel_bilinear_formula (img : Image) (factor : ℚ) (i j : ℕ)
    (hwf : img.wf) (hfac : 0 < factor)
    (hi : i < Int.toNat ⌊(img.nrows : ℚ) * factor⌋)
    (hj : j < Int.toNat ⌊(img.ncols : ℚ) * factor⌋) :
    ∃ out, img.scale factor = some out ∧
      out.index i j = some (bilinearByte img factor i j) := by
  refine ⟨_, scale_eq_grid img factor hwf hfac, ?_⟩
  simp only [Image.index]
  exact flat_grid_getElem _ i j _ _ hi hj

/-- Witness for C4 at the 2×2 constant raster `[[7,7],[7,7]]`, factor 2,
destination pixel `(1, 1)`: it is produced and equals the formula's value,
which evaluates to 7. -/
theorem scale_pixel_bilinear_formula_witness :
    ∃ out, Image.scale (Image.mk 2 2 [7, 7, 7, 7]) 2 = some out
      ∧ out.index 1 1 = some (bilinearByte (Image.mk 2 2 [7, 7, 7, 7]) 2 1 1)
      ∧ bilinearByte (Image.mk 2 2 [7, 7, 7, 7]) 2 1 1 = 7 := by
  obtain ⟨out, h1, h2⟩ := scale_pixel_bilinear_formula
    (Image.mk 2 2 [7, 7, 7, 7]) 2 1 1 rfl (by norm_num)
    (by norm_num) (by norm_num)
  refine ⟨out, h1, h2, ?_⟩
  norm_num [bilinearByte, u8_of_int, rat_round, List.getD]
  decide

/-- Claim C5: for every well-formed R×C source raster and positive factor,
`scale` succeeds and returns a raster with exactly `⌊R * factor⌋` rows and
`⌊C * factor⌋` columns, each dimension computed independently. -/
theorem scale_dimensions_floor (img : Image) (factor : ℚ)
    (hwf : img.wf) (hfac : 0 < factor) :
    ∃ out, img.scale factor = some out
      ∧ out.rows = Int.toNat ⌊(img.rows : ℚ) * factor⌋
      ∧ out.cols = Int.toNat ⌊(img.cols : ℚ) * factor⌋ :=
  ⟨_, scale_eq_grid img factor hwf hfac, rfl, rfl⟩

/-- Witness for C5: scaling the 2×2 raster by 2 yields a 4×4 raster. -/
theorem scale_dimensions_floor_witness :
    ∃ out, Image.scale (Image.mk 2 2 [7, 7, 7, 7]) 2 = some out
      ∧ out.rows = 4 ∧ out.cols = 4 := by
  obtain ⟨out, h1, h2, h3⟩ := scale_dimensions_floor
    (Image.mk 2 2 [7, 7, 7, 7]) 2 rfl (by norm_num)
  refine ⟨out, h1, ?_, ?_⟩
  · rw [h2]; norm_num [Image.rows]; decide
  · rw [h3]; norm_num [Image.cols]; decide

/-- Claim C10: for every source raster and positive factor with
`⌊rows*factor⌋ = 0` or `⌊cols*factor⌋ = 0`, `scale` returns normally (no
panic, no out-of-bounds access) a degenerate raster with an empty pixel
buffer and the computed dimensions, whose product is zero. -/
theorem scale_degenerate_empty (img : Image) (factor : ℚ) (_hfac : 0 < factor)
    (hdeg : Int.toNat ⌊(img.nrows : ℚ) * factor⌋ = 0
          ∨ Int.toNat ⌊(img.ncols : ℚ) * factor⌋ = 0) :
    img.scale factor = some (Image.mk (Int.toNat ⌊(img.nrows : ℚ) * factor⌋)
        (Int.toNat ⌊(img.ncols : ℚ) * factor⌋) [])
  ∧ Int.toNat ⌊(img.nrows : ℚ) * factor⌋ * Int.toNat ⌊(img.ncols : ℚ) * factor⌋
      = 0 := by
  have hempty : (List.range (Int.toNat ⌊(img.nrows : ℚ) * factor⌋)).flatMap
      (fun i => (List.range (Int.toNat ⌊(img.ncols : ℚ) * factor⌋)).map
        (fun j => img.scalePixel factor i j)) = [] := by
    rcases hdeg with h | h <;> rw [h] <;> simp
  constructor
  · simp only [Image.scale]
    rw [hempty]
    simp only [optSequence, Image.from_vec]
    rw [if_pos (by rcases hdeg with h | h <;> simp [h])]
  · rcases hdeg with h | h <;> simp [h]

/-- Witness for C10: a 1×1 raster scaled by 1/2 gives the empty 0×0
raster. -/
theorem scale_degenerate_empty_witness :
    Image.scale (Image.mk 1 1 [5]) (1/2) = some (Image.mk 0 0 []) := by
  have h := (scale_degenerate_empty (Image.mk 1 1 [5]) (1/2) (by norm_num)
    (Or.inl (by norm_num))).1
  norm_num at h
  exact h
